import Mathlib

/-!
Verification of the fretboard-trainer core: note mapping, match evaluation,
calibration adjustment, and the YIN pitch estimator. Each definition is a
shallow embedding of the corresponding JavaScript function, with JavaScript
numbers modelled as real numbers. JavaScript `%` on integers is remainder
with the sign of the dividend, modelled by `Int.tmod`; `Math.floor` of an
integer quotient is modelled by `Int.fdiv`.
-/

namespace FretboardTrainer

/-- `NOTE_NAMES` from src/fretboard.js line 3: the single twelve-entry
chromatic array starting at C (written here as an append of two halves,
which is the same list). -/
def NOTE_NAMES : List String :=
  ["C", "C#", "D", "D#", "E", "F"] ++ ["F#", "G", "G#", "A", "A#", "B"]

/-- One entry of `OPEN_STRINGS` (src/fretboard.js lines 7-14). -/
structure OpenString where
  note : String
  octave : ℤ
  frequency : ℝ
  midi : ℤ

/-- `OPEN_STRINGS` from src/fretboard.js lines 7-14, keyed by string number
1..6 (6 = low E, 1 = high E). Other keys are irrelevant junk. -/
noncomputable def OPEN_STRINGS : ℕ → OpenString
  | 6 => ⟨"E", 2, 82.41, 40⟩
  | 5 => ⟨"A", 2, 110.00, 45⟩
  | 4 => ⟨"D", 3, 146.83, 50⟩
  | 3 => ⟨"G", 3, 196.00, 55⟩
  | 2 => ⟨"B", 3, 246.94, 59⟩
  | 1 => ⟨"E", 4, 329.63, 64⟩
  | _ => ⟨"", 0, 0, 0⟩

/-- One fretboard entry pushed by `generateFretboard` (src/fretboard.js
lines 28-35). -/
structure Position where
  string : ℕ
  fret : ℕ
  note : String
  octave : ℤ
  frequency : ℝ
  midiNote : ℤ

/-- `generateFretboard` from src/fretboard.js lines 17-40: strings 1..6,
frets 0..12, `midiNote = openString.midi + fret`,
`noteIndex = midiNote % 12` (midiNote is always positive here, so JS `%`
agrees with `Int.emod`; `.toNat` only serves the list indexing),
`octave = Math.floor(midiNote / 12) - 1`,
`frequency = 440 * 2^((midiNote - 69) / 12)`. -/
noncomputable def generateFretboard : List Position :=
  (List.range' 1 6).flatMap fun (string : ℕ) =>
    (List.range' 0 13).map fun (fret : ℕ) =>
      let openString := OPEN_STRINGS string
      let midiNote : ℤ := openString.midi + (fret : ℤ)
      let noteIndex : ℕ := (midiNote % 12).toNat
      let octave : ℤ := midiNote.fdiv 12 - 1
      let frequency : ℝ := 440 * (2 : ℝ) ^ (((midiNote : ℝ) - 69) / 12)
      ⟨string, fret, NOTE_NAMES.getD noteIndex "", octave, frequency, midiNote⟩

/-- `FRETBOARD` from src/fretboard.js line 42. -/
noncomputable def FRETBOARD : List Position := generateFretboard

/-- The entry for the open low E string (string 6, fret 0), spelled exactly
as `generateFretboard` constructs it; used as a concrete sample of
`FRETBOARD`. -/
noncomputable def openLowE : Position :=
  ⟨6, 0,
    NOTE_NAMES.getD ((((OPEN_STRINGS 6).midi + (0:ℤ)) % 12).toNat) "",
    ((OPEN_STRINGS 6).midi + (0:ℤ)).fdiv 12 - 1,
    440 * (2 : ℝ) ^
      ((((((OPEN_STRINGS 6).midi + (0:ℤ) : ℤ) : ℝ)) - 69) / 12),
    (OPEN_STRINGS 6).midi + (0:ℤ)⟩

/-- The record returned by `frequencyToNote` (src/fretboard.js lines 57-61). -/
structure NoteInfo where
  note : String
  midiNote : ℤ
  octave : ℤ

/-- `frequencyToNote` from src/fretboard.js lines 51-62:
rejects `freq < 20 || freq > 5000` with `null`, else
`midiNote = Math.round(12 * Math.log2(freq / 440) + 69)`,
`noteIndex = ((midiNote % 12) + 12) % 12` (JS `%` is `Int.tmod`),
`octave = Math.floor(midiNote / 12) - 1`. -/
noncomputable def frequencyToNote (freq : ℝ) : Option NoteInfo :=
  if freq < 20 ∨ freq > 5000 then none
  else
    let midiNote : ℤ := round (12 * Real.logb 2 (freq / 440) + 69)
    let noteIndex : ℕ := (((midiNote.tmod 12) + 12).tmod 12).toNat
    some ⟨NOTE_NAMES.getD noteIndex "", midiNote, midiNote.fdiv 12 - 1⟩

/-- The default value of the `toleranceCents` parameter of `isNoteMatch`
(src/fretboard.js line 66). -/
def defaultToleranceCents : ℝ := 50

/-- `isNoteMatch` from src/fretboard.js lines 66-71. The detected frequency
may be absent (`null`/`undefined`), modelled as `Option ℝ`; the JS guard
`!detectedFreq || detectedFreq < 20` is falsy exactly on a missing value,
`0`, or a value below 20 (over the reals, `detectedFreq = 0` is subsumed by
`detectedFreq < 20`). Otherwise the result is
`|1200 * log2(detectedFreq / targetFreq)| <= toleranceCents`. -/
noncomputable def isNoteMatch (detectedFreq : Option ℝ) (targetFreq : ℝ)
    (toleranceCents : ℝ) : Prop :=
  match detectedFreq with
  | none => False
  | some d =>
    if d = 0 ∨ d < 20 then False
    else |1200 * Real.logb 2 (d / targetFreq)| ≤ toleranceCents

/-- `getCalibrationOffset` from src/fretboard.js lines 607-609:
`this.calibrationOffsets[stringNum] || 0`. A missing entry is `undefined`,
which is falsy, giving 0; a stored 0 is also falsy, giving the same 0. -/
def getCalibrationOffset (calibrationOffsets : ℕ → Option ℝ)
    (stringNum : ℕ) : ℝ :=
  (calibrationOffsets stringNum).getD 0

/-- `getCalibratedTargetFrequency` from src/fretboard.js lines 612-616:
`targetFreq * 2^(offsetCents / 1200)`. -/
noncomputable def getCalibratedTargetFrequency
    (calibrationOffsets : ℕ → Option ℝ) (targetFreq : ℝ)
    (stringNum : ℕ) : ℝ :=
  targetFreq *
    (2 : ℝ) ^ (getCalibrationOffset calibrationOffsets stringNum / 1200)

/-! ## The YIN pitch estimator (src/unnamed/part_002, `AudioPitchDetector`)

The audio buffer is a list of real samples; `buffer[i]` is `buffer.getD i 0`
(every index the algorithm reads is in range, so the default is never hit). -/

/-- The record returned by `yinDetect` (src/unnamed/part_002 lines 112, 185). -/
structure PitchResult where
  frequency : ℝ
  probability : ℝ

/-- `this.yinThreshold` (src/unnamed/part_002 line 17). -/
def yinThreshold : ℝ := 0.15

/-- `this.minFrequency` (src/unnamed/part_002 line 13). -/
def minFrequency : ℝ := 70

/-- `this.maxFrequency` (src/unnamed/part_002 line 14). -/
def maxFrequency : ℝ := 1200

/-- `this.yinProbabilityThreshold` (src/unnamed/part_002 line 18). -/
def yinProbabilityThreshold : ℝ := 0.8

/-- The no-detection result `{frequency: -1, probability: 0}` returned on
the three early-exit paths of `yinDetect` (lines 112, 153, 182). -/
noncomputable def noDetection : PitchResult := ⟨-1, 0⟩

/-- RMS gate of `yinDetect` (lines 104-108):
`sqrt((Σ buffer[i]^2) / bufferSize)`. For the empty buffer JS computes
`sqrt(0/0) = NaN`, which fails the `< 0.01` test but still produces the
no-detection result through the empty threshold scan; here `0 / 0 = 0`
reaches the identical result through the RMS gate instead. -/
noncomputable def yinRms (buffer : List ℝ) : ℝ :=
  Real.sqrt ((∑ i ∈ Finset.range buffer.length, buffer.getD i 0 ^ 2) /
    buffer.length)

/-- Difference function `d(τ)` of `yinDetect` (lines 126-130):
`Σ_{i < halfBuffer} (buffer[i] - buffer[i+τ])²`. -/
noncomputable def yinDelta (buffer : List ℝ) (tau : ℕ) : ℝ :=
  ∑ i ∈ Finset.range (buffer.length / 2),
    (buffer.getD i 0 - buffer.getD (i + tau) 0) ^ 2

/-- The `runningSum` accumulator at lag `τ` (lines 122, 133):
`Σ_{j=1..τ} d(j)`. -/
noncomputable def yinRunningSum (buffer : List ℝ) (tau : ℕ) : ℝ :=
  ∑ j ∈ Finset.Icc 1 tau, yinDelta buffer j

/-- The cumulative-mean-normalised difference `d'` — the `yinBuffer` of
lines 117-135: `d'(0) = 1` and `d'(τ) = d(τ)·τ / Σ_{j=1..τ} d(j)`.
When the running sum is 0 (degenerate periodic buffer) JS produces
`0·τ/0 = NaN`; Lean's convention `x / 0 = 0` makes it 0. -/
noncomputable def yinCMND (buffer : List ℝ) (tau : ℕ) : ℝ :=
  if tau = 0 then 1
  else yinDelta buffer tau * tau / yinRunningSum buffer tau

/-- The local-minimum walk of step 3 (lines 143-145): advance `τ` while
the next `d'` value exists below `halfBuffer` and keeps decreasing. -/
noncomputable def yinWalk (buffer : List ℝ) (tau : ℕ) : ℕ :=
  if h : tau + 1 < buffer.length / 2 ∧
      yinCMND buffer (tau + 1) < yinCMND buffer tau then
    yinWalk buffer (tau + 1)
  else tau
termination_by buffer.length / 2 - tau
decreasing_by
  have := h.1
  omega

/-- The absolute-threshold scan of step 3 (lines 139-149): the first
`τ ∈ [tau, halfBuffer)` with `d'(τ) < yinThreshold`, refined to the local
minimum of its dip by `yinWalk`; `none` when the threshold is never
crossed. `yinDetect` starts the scan at `τ = 2`. -/
noncomputable def yinScan (buffer : List ℝ) (tau : ℕ) : Option ℕ :=
  if h : tau < buffer.length / 2 then
    if yinCMND buffer tau < yinThreshold then some (yinWalk buffer tau)
    else yinScan buffer (tau + 1)
  else none
termination_by buffer.length / 2 - tau

/-- Parabolic interpolation, step 4 (lines 156-172). JS guards the
interpolated value with `isFinite`, which fails exactly when the
denominator is 0; the subtraction `halfBuffer - 1` is ℕ subtraction, and
`yinDetect` only calls this with `2 ≤ tauEstimate < halfBuffer`, where it
agrees with JS number arithmetic. -/
noncomputable def yinBetterTau (buffer : List ℝ) (tauEstimate : ℕ) : ℝ :=
  if 0 < tauEstimate ∧ tauEstimate < buffer.length / 2 - 1 then
    let s0 := yinCMND buffer (tauEstimate - 1)
    let s1 := yinCMND buffer tauEstimate
    let s2 := yinCMND buffer (tauEstimate + 1)
    if 2 * (2 * s1 - s2 - s0) = 0 then (tauEstimate : ℝ)
    else (tauEstimate : ℝ) + (s2 - s0) / (2 * (2 * s1 - s2 - s0))
  else (tauEstimate : ℝ)

/-- `yinDetect` (src/unnamed/part_002 lines 99-186). -/
noncomputable def yinDetect (buffer : List ℝ) (sampleRate : ℝ) :
    PitchResult :=
  if yinRms buffer < 0.01 then noDetection
  else
    match yinScan buffer 2 with
    | none => noDetection
    | some tauEstimate =>
      let frequency := sampleRate / yinBetterTau buffer tauEstimate
      let probability := 1 - yinCMND buffer tauEstimate
      if frequency < minFrequency ∨ frequency > maxFrequency then noDetection
      else ⟨frequency, probability⟩

/-- The confidence gate of `detectPitch` (src/unnamed/part_002 line 89):
the `onPitchDetected` callback fires exactly when
`result.frequency > 0 && result.probability >= this.yinProbabilityThreshold`. -/
def passesGate (r : PitchResult) : Prop :=
  0 < r.frequency ∧ yinProbabilityThreshold ≤ r.probability

/-- A concrete period-2 buffer on which `yinDetect` detects: six samples
alternating 1 and -1. -/
noncomputable def demoBuffer : List ℝ := [1, -1, 1, -1, 1, -1]

/-! ## Theorems -/

/-- C1: For every frequency `freq` with `20 < freq < 5000`,
`frequencyToNote freq` returns a record whose `midiNote` equals
`round (12 * log2 (freq / 440) + 69)`, whose `note` equals
`NOTE_NAMES[((midiNote mod 12) + 12) mod 12]` (JS remainder `%` is
`Int.tmod`), and whose `octave` equals `floor (midiNote / 12) - 1`. -/
theorem frequencyToNote_formula (freq : ℝ) (h1 : 20 < freq)
    (h2 : freq < 5000) :
    ∃ info, frequencyToNote freq = some info ∧
      info.midiNote = round (12 * Real.logb 2 (freq / 440) + 69) ∧
      info.note =
        NOTE_NAMES.getD ((info.midiNote.tmod 12 + 12).tmod 12).toNat "" ∧
      info.octave = info.midiNote.fdiv 12 - 1 := by
  have hg : ¬ (freq < 20 ∨ freq > 5000) := by
    push_neg
    constructor <;> linarith
  refine ⟨⟨NOTE_NAMES.getD
      (((round (12 * Real.logb 2 (freq / 440) + 69) : ℤ).tmod 12 +
        12).tmod 12).toNat "",
      round (12 * Real.logb 2 (freq / 440) + 69),
      (round (12 * Real.logb 2 (freq / 440) + 69) : ℤ).fdiv 12 - 1⟩,
    ?_, rfl, rfl, rfl⟩
  simp only [frequencyToNote]
  rw [if_neg hg]

/-- Witness for C1 at `freq = 440`. -/
theorem frequencyToNote_formula_witness :
    (20:ℝ) < 440 ∧ (440:ℝ) < 5000 ∧
    ∃ info, frequencyToNote 440 = some info ∧
      info.midiNote = round (12 * Real.logb 2 ((440:ℝ) / 440) + 69) ∧
      info.note =
        NOTE_NAMES.getD ((info.midiNote.tmod 12 + 12).tmod 12).toNat "" ∧
      info.octave = info.midiNote.fdiv 12 - 1 :=
  ⟨by norm_num, by norm_num,
    frequencyToNote_formula 440 (by norm_num) (by norm_num)⟩

/-- C8 counterexample: the claim says an input of exactly 20 Hz is
rejected, but the guard `freq < 20 || freq > 5000` accepts it, so
`frequencyToNote 20` is not `none`. -/
theorem frequencyToNote_at_20_cex : frequencyToNote 20 ≠ none := by
  simp only [frequencyToNote]
  rw [if_neg (by norm_num)]
  simp

/-- C8 (amended): `frequencyToNote freq` returns `none` iff `freq < 20`
or `freq > 5000`; the boundary inputs 20 Hz and 5000 Hz are accepted. -/
theorem frequencyToNote_none_iff (freq : ℝ) :
    frequencyToNote freq = none ↔ (freq < 20 ∨ freq > 5000) := by
  simp only [frequencyToNote]
  by_cases h : freq < 20 ∨ freq > 5000
  · rw [if_pos h]
    simpa using h
  · rw [if_neg h]
    simpa using h

/-- C2: `isNoteMatch` returns false when the detected frequency is missing,
non-positive, or below 20 Hz; otherwise it holds exactly when
`|1200 * log2(detected / target)| ≤ toleranceCents`; the default tolerance
is 50 cents; and it is symmetric between sharp and flat deviations of
equal magnitude. -/
theorem isNoteMatch_spec (targetFreq tol : ℝ) :
    (¬ isNoteMatch none targetFreq tol) ∧
    (∀ d : ℝ, d ≤ 0 → ¬ isNoteMatch (some d) targetFreq tol) ∧
    (∀ d : ℝ, d < 20 → ¬ isNoteMatch (some d) targetFreq tol) ∧
    (∀ d : ℝ, 20 ≤ d →
      (isNoteMatch (some d) targetFreq tol ↔
        |1200 * Real.logb 2 (d / targetFreq)| ≤ tol)) ∧
    defaultToleranceCents = 50 ∧
    (∀ c : ℝ, 0 < targetFreq →
      20 ≤ targetFreq * (2:ℝ) ^ (c / 1200) →
      20 ≤ targetFreq * (2:ℝ) ^ (-c / 1200) →
      (isNoteMatch (some (targetFreq * (2:ℝ) ^ (c / 1200))) targetFreq tol ↔
       isNoteMatch (some (targetFreq * (2:ℝ) ^ (-c / 1200))) targetFreq
         tol)) := by
  have h4 : ∀ d : ℝ, 20 ≤ d →
      (isNoteMatch (some d) targetFreq tol ↔
        |1200 * Real.logb 2 (d / targetFreq)| ≤ tol) := by
    intro d hd
    simp only [isNoteMatch]
    rw [if_neg (not_or.mpr ⟨ne_of_gt (by linarith), not_lt.mpr hd⟩)]
  refine ⟨by simp [isNoteMatch], ?_, ?_, h4, rfl, ?_⟩
  · intro d hd
    simp only [isNoteMatch]
    rw [if_pos (Or.inr (by linarith))]
    exact not_false
  · intro d hd
    simp only [isNoteMatch]
    rw [if_pos (Or.inr hd)]
    exact not_false
  · intro c ht hc1 hc2
    rw [h4 _ hc1, h4 _ hc2,
      mul_div_cancel_left₀ _ (ne_of_gt ht),
      mul_div_cancel_left₀ _ (ne_of_gt ht),
      Real.logb_rpow (by norm_num) (by norm_num),
      Real.logb_rpow (by norm_num) (by norm_num)]
    have e1 : (1200:ℝ) * (c / 1200) = c := by
      rw [mul_comm, div_mul_cancel₀ c (by norm_num : (1200:ℝ) ≠ 0)]
    have e2 : (1200:ℝ) * (-c / 1200) = -c := by
      rw [mul_comm, div_mul_cancel₀ (-c) (by norm_num : (1200:ℝ) ≠ 0)]
    rw [e1, e2, abs_neg]

/-- Witness for C2 at detected = target = 440, tolerance 50. -/
theorem isNoteMatch_spec_witness :
    (20:ℝ) ≤ 440 ∧
    (isNoteMatch (some 440) 440 50 ↔
      |1200 * Real.logb 2 ((440:ℝ) / 440)| ≤ 50) :=
  ⟨by norm_num, (isNoteMatch_spec 440 50).2.2.2.1 440 (by norm_num)⟩

/-- C7: the calibration-adjusted target frequency is
`targetFreq * 2^(offset / 1200)`, where the per-string offset defaults to
0 — a string with no stored offset leaves the target unchanged. -/
theorem getCalibratedTargetFrequency_spec (offsets : ℕ → Option ℝ)
    (targetFreq : ℝ) (stringNum : ℕ) :
    getCalibratedTargetFrequency offsets targetFreq stringNum =
      targetFreq * (2:ℝ) ^ (((offsets stringNum).getD 0) / 1200) ∧
    (offsets stringNum = none →
      getCalibratedTargetFrequency offsets targetFreq stringNum =
        targetFreq) := by
  constructor
  · rfl
  · intro h
    simp only [getCalibratedTargetFrequency, getCalibrationOffset, h]
    simp

/-- Witness for C7: with no stored offsets, string 3's adjusted target of
100 Hz stays 100 Hz. -/
theorem getCalibratedTargetFrequency_spec_witness :
    (fun _ : ℕ => (none : Option ℝ)) 3 = none ∧
    getCalibratedTargetFrequency (fun _ => none) 100 3 = 100 :=
  ⟨rfl, (getCalibratedTargetFrequency_spec (fun _ => none) 100 3).2 rfl⟩

/-- Any string/fret pair in range gives a member of `FRETBOARD`, spelled
as `generateFretboard` constructs it. -/
theorem mem_fretboard (string fret : ℕ) (hs1 : 1 ≤ string)
    (hs2 : string ≤ 6) (hf : fret ≤ 12) :
    (⟨string, fret,
      NOTE_NAMES.getD
        ((((OPEN_STRINGS string).midi + (fret:ℤ)) % 12).toNat) "",
      ((OPEN_STRINGS string).midi + (fret:ℤ)).fdiv 12 - 1,
      440 * (2 : ℝ) ^
        ((((((OPEN_STRINGS string).midi + (fret:ℤ) : ℤ) : ℝ)) - 69) / 12),
      (OPEN_STRINGS string).midi + (fret:ℤ)⟩ : Position) ∈ FRETBOARD := by
  simp only [FRETBOARD, generateFretboard, List.mem_flatMap, List.mem_map]
  refine ⟨string, ?_, fret, ?_, rfl⟩
  · rw [List.mem_range'_1]
    omega
  · rw [List.mem_range'_1]
    omega

/-- The open low E entry is in the fretboard table. -/
theorem mem_openLowE : openLowE ∈ FRETBOARD :=
  mem_fretboard 6 0 (by norm_num) (by norm_num) (by norm_num)

/-- C3 counterexample: the generated frequency of string 6, fret 0 is
`440·2^(-29/12) ≈ 82.4069 Hz`, not the tabulated reference frequency
`82.41 · 2^(0/12) = 82.41 Hz`: the tabulated open-string frequencies are
rounded, so the claimed product form fails. -/
theorem fretboard_refFrequency_cex :
    ¬ (∀ p ∈ FRETBOARD, p.frequency =
        (OPEN_STRINGS p.string).frequency * (2:ℝ) ^ ((p.fret : ℝ) / 12)) := by
  intro hAll
  have hp := hAll openLowE mem_openLowE
  have hp' : 440 * (2:ℝ) ^ ((-29:ℝ)/12) = 8241 / 100 := by
    have e0 : (((((OPEN_STRINGS 6).midi + (0:ℤ) : ℤ) : ℝ)) - 69) / 12 =
        (-29:ℝ)/12 := by
      norm_num [OPEN_STRINGS]
    have e1 : ((0:ℕ) : ℝ) / 12 = 0 := by norm_num
    simp only [openLowE, e0, e1, Real.rpow_zero, mul_one] at hp
    rw [hp]
    norm_num [OPEN_STRINGS]
  have h2 : (2:ℝ) ^ ((-29:ℝ)/12) = 8241 / 44000 := by
    rw [eq_div_iff (by norm_num : (44000:ℝ) ≠ 0)]
    linarith
  have h3 : ((2:ℝ) ^ ((-29:ℝ)/12)) ^ (12:ℕ) = ((2:ℝ) ^ (29:ℕ))⁻¹ := by
    rw [← Real.rpow_natCast ((2:ℝ) ^ ((-29:ℝ)/12)) 12,
      ← Real.rpow_mul (by norm_num : (0:ℝ) ≤ 2),
      show ((-29:ℝ)/12 * ((12:ℕ):ℝ)) = ((-29:ℤ):ℝ) by push_cast; norm_num,
      Real.rpow_intCast]
    norm_num [zpow_neg]
  rw [h2] at h3
  have h4 : ((8241:ℝ)/44000) ^ (12:ℕ) ≠ ((2:ℝ) ^ (29:ℕ))⁻¹ := by
    intro hEq
    rw [div_pow, inv_eq_one_div,
      div_eq_div_iff (by positivity) (by positivity)] at hEq
    norm_num at hEq
  exact h4 h3

/-- C3 (amended): the table has 78 entries, and each entry satisfies
`midiNote = openMidi + fret`, `frequency = 440·2^((midiNote-69)/12)`
(the exact equal-tempered frequency of its MIDI number — the rounded
tabulated open-string frequencies do not reproduce it), `note =
NOTE_NAMES[midiNote mod 12]` and `octave = floor(midiNote/12) - 1`. -/
theorem fretboard_invariant :
    FRETBOARD.length = 78 ∧
    ∀ p ∈ FRETBOARD,
      p.midiNote = (OPEN_STRINGS p.string).midi + (p.fret : ℤ) ∧
      p.frequency = 440 * (2:ℝ) ^ (((p.midiNote : ℝ) - 69) / 12) ∧
      p.note = NOTE_NAMES.getD ((p.midiNote % 12).toNat) "" ∧
      p.octave = p.midiNote.fdiv 12 - 1 := by
  refine ⟨rfl, ?_⟩
  intro p hp
  simp only [FRETBOARD, generateFretboard, List.mem_flatMap,
    List.mem_map] at hp
  obtain ⟨s, hs, f, hf, rfl⟩ := hp
  exact ⟨rfl, rfl, rfl, rfl⟩

/-- Witness for C3 (amended) at the open low E entry. -/
theorem fretboard_invariant_witness :
    openLowE ∈ FRETBOARD ∧
    (openLowE.midiNote = (OPEN_STRINGS openLowE.string).midi +
        (openLowE.fret : ℤ) ∧
      openLowE.frequency =
        440 * (2:ℝ) ^ (((openLowE.midiNote : ℝ) - 69) / 12) ∧
      openLowE.note = NOTE_NAMES.getD ((openLowE.midiNote % 12).toNat) "" ∧
      openLowE.octave = openLowE.midiNote.fdiv 12 - 1) :=
  ⟨mem_openLowE, fretboard_invariant.2 openLowE mem_openLowE⟩

/-- For any MIDI number `m` between 40 and 76 (the table's range),
`frequencyToNote` maps its equal-tempered frequency back to exactly `m`. -/
theorem frequencyToNote_of_midi (m : ℤ) (h1 : 40 ≤ m) (h2 : m ≤ 76) :
    frequencyToNote (440 * (2:ℝ) ^ (((m:ℝ) - 69) / 12)) =
      some ⟨NOTE_NAMES.getD (((m.tmod 12 + 12).tmod 12).toNat) "", m,
        m.fdiv 12 - 1⟩ := by
  have hcast1 : (40:ℝ) ≤ (m:ℝ) := by exact_mod_cast h1
  have hcast2 : (m:ℝ) ≤ 76 := by exact_mod_cast h2
  have hmono_low : (2:ℝ) ^ ((-3:ℝ)) ≤ (2:ℝ) ^ (((m:ℝ) - 69) / 12) := by
    apply (Real.rpow_le_rpow_left_iff (by norm_num : (1:ℝ) < 2)).mpr
    linarith
  have h2n3 : (2:ℝ) ^ ((-3:ℝ)) = 1/8 := by
    rw [show ((-3:ℝ)) = ((-3:ℤ):ℝ) by norm_num, Real.rpow_intCast]
    norm_num
  have hlow : (55:ℝ) ≤ 440 * (2:ℝ) ^ (((m:ℝ) - 69) / 12) := by
    rw [h2n3] at hmono_low
    linarith
  have hmono_high : (2:ℝ) ^ (((m:ℝ) - 69) / 12) ≤ (2:ℝ) ^ ((1:ℝ)) := by
    apply (Real.rpow_le_rpow_left_iff (by norm_num : (1:ℝ) < 2)).mpr
    linarith
  have hhigh : 440 * (2:ℝ) ^ (((m:ℝ) - 69) / 12) ≤ 880 := by
    rw [Real.rpow_one] at hmono_high
    linarith
  simp only [frequencyToNote]
  rw [if_neg (by push_neg; constructor <;> linarith)]
  have hm : round (12 * Real.logb 2
      (440 * (2:ℝ) ^ (((m:ℝ) - 69) / 12) / 440) + 69) = m := by
    rw [mul_div_cancel_left₀ _ (by norm_num : (440:ℝ) ≠ 0),
      Real.logb_rpow (by norm_num) (by norm_num),
      show (12:ℝ) * (((m:ℝ) - 69) / 12) + 69 = (m:ℝ) by ring]
    exact round_intCast m
  rw [hm]

/-- C6: for every fretboard position, `frequencyToNote` applied to its
frequency succeeds and returns its note name and its MIDI number. -/
theorem fretboard_roundTrip (p : Position) (hp : p ∈ FRETBOARD) :
    ∃ info, frequencyToNote p.frequency = some info ∧
      info.note = p.note ∧ info.midiNote = p.midiNote := by
  simp only [FRETBOARD, generateFretboard, List.mem_flatMap,
    List.mem_map] at hp
  obtain ⟨s, hs, f, hf, rfl⟩ := hp
  rw [List.mem_range'_1] at hs hf
  have hs1 : 1 ≤ s := hs.1
  have hs2 : s ≤ 6 := by omega
  have hmlow : (40:ℤ) ≤ (OPEN_STRINGS s).midi := by
    interval_cases s <;> norm_num [OPEN_STRINGS]
  have hmhigh : (OPEN_STRINGS s).midi ≤ 64 := by
    interval_cases s <;> norm_num [OPEN_STRINGS]
  have hf12 : (f:ℤ) ≤ 12 := by
    have : f < 0 + 13 := hf.2
    omega
  have hf0 : (0:ℤ) ≤ (f:ℤ) := Int.ofNat_nonneg f
  have h1 : 40 ≤ (OPEN_STRINGS s).midi + (f:ℤ) := by omega
  have h2 : (OPEN_STRINGS s).midi + (f:ℤ) ≤ 76 := by omega
  refine ⟨_, frequencyToNote_of_midi _ h1 h2, ?_, rfl⟩
  show NOTE_NAMES.getD
      (((((OPEN_STRINGS s).midi + (f:ℤ)).tmod 12 + 12).tmod 12).toNat) "" =
    NOTE_NAMES.getD ((((OPEN_STRINGS s).midi + (f:ℤ)) % 12).toNat) ""
  have hm0 : (0:ℤ) ≤ (OPEN_STRINGS s).midi + (f:ℤ) := by omega
  have hmod0 : (0:ℤ) ≤ ((OPEN_STRINGS s).midi + (f:ℤ)) % 12 :=
    Int.emod_nonneg _ (by norm_num)
  rw [Int.tmod_eq_emod hm0 (by norm_num),
    Int.tmod_eq_emod (by omega) (by norm_num)]
  congr 2
  omega

/-- Witness for C6 at the open low E entry. -/
theorem fretboard_roundTrip_witness :
    openLowE ∈ FRETBOARD ∧
    ∃ info, frequencyToNote openLowE.frequency = some info ∧
      info.note = openLowE.note ∧ info.midiNote = openLowE.midiNote :=
  ⟨mem_openLowE, fretboard_roundTrip openLowE mem_openLowE⟩

/-- The difference function is a sum of squares, hence nonnegative. -/
theorem yinDelta_nonneg (buffer : List ℝ) (tau : ℕ) :
    0 ≤ yinDelta buffer tau :=
  Finset.sum_nonneg fun _ _ => sq_nonneg _

/-- The running sum of difference values is nonnegative. -/
theorem yinRunningSum_nonneg (buffer : List ℝ) (tau : ℕ) :
    0 ≤ yinRunningSum buffer tau :=
  Finset.sum_nonneg fun j _ => yinDelta_nonneg buffer j

/-- The cumulative-mean-normalised difference is nonnegative. -/
theorem yinCMND_nonneg (buffer : List ℝ) (tau : ℕ) :
    0 ≤ yinCMND buffer tau := by
  unfold yinCMND
  split
  · norm_num
  · exact div_nonneg
      (mul_nonneg (yinDelta_nonneg buffer tau) (Nat.cast_nonneg tau))
      (yinRunningSum_nonneg buffer tau)

/-- The local-minimum walk stays inside the lag range, never increases the
`d'` value, and never moves backwards. -/
theorem yinWalk_spec (buffer : List ℝ) (tau : ℕ)
    (h : tau < buffer.length / 2) :
    yinWalk buffer tau < buffer.length / 2 ∧
    yinCMND buffer (yinWalk buffer tau) ≤ yinCMND buffer tau ∧
    tau ≤ yinWalk buffer tau := by
  rw [yinWalk]
  split
  next hc =>
    have ih := yinWalk_spec buffer (tau + 1) hc.1
    exact ⟨ih.1, le_trans ih.2.1 (le_of_lt hc.2),
      le_trans (Nat.le_succ tau) ih.2.2⟩
  next hc => exact ⟨h, le_refl _, le_refl _⟩
termination_by buffer.length / 2 - tau
decreasing_by
  rename_i hcond
  have := hcond.1
  omega

/-- When the scan returns a lag, that lag is at least the start, lies in
the valid range and its `d'` value is below the threshold. -/
theorem yinScan_some (buffer : List ℝ) (t tau : ℕ)
    (h : yinScan buffer t = some tau) :
    t ≤ tau ∧ tau < buffer.length / 2 ∧
    yinCMND buffer tau < yinThreshold := by
  rw [yinScan] at h
  split at h
  next ht =>
    split at h
    next hc =>
      have hw := yinWalk_spec buffer t ht
      have heq : yinWalk buffer t = tau := Option.some.inj h
      rw [← heq]
      exact ⟨hw.2.2, hw.1, lt_of_le_of_lt hw.2.1 hc⟩
    next hc =>
      have ih := yinScan_some buffer (t + 1) tau h
      exact ⟨le_trans (Nat.le_succ t) ih.1, ih.2⟩
  next ht => exact absurd h (by simp)
termination_by buffer.length / 2 - t
decreasing_by omega

/-- The scan returns `none` exactly when no lag in `[t, halfBuffer)` has a
`d'` value below the threshold. -/
theorem yinScan_none_iff (buffer : List ℝ) (t : ℕ) :
    yinScan buffer t = none ↔
      ∀ tau, t ≤ tau → tau < buffer.length / 2 →
        yinThreshold ≤ yinCMND buffer tau := by
  rw [yinScan]
  split
  next ht =>
    split
    next hc =>
      constructor
      · intro h
        exact absurd h (by simp)
      · intro h
        exact absurd hc (not_lt.mpr (h t le_rfl ht))
    next hc =>
      rw [yinScan_none_iff buffer (t + 1)]
      constructor
      · intro h tau h1 h2
        rcases Nat.eq_or_lt_of_le h1 with rfl | hlt
        · exact not_lt.mp hc
        · exact h tau hlt h2
      · intro h tau h1 h2
        exact h tau (le_trans (Nat.le_succ t) h1) h2
  next ht =>
    constructor
    · intro _ tau h1 h2
      exact absurd (lt_of_le_of_lt h1 h2) ht
    · intro _
      rfl
termination_by buffer.length / 2 - t
decreasing_by omega

/-- First exit of `yinDetect`: a quiet buffer gives no detection. -/
theorem yinDetect_rms_lt (buffer : List ℝ) (sampleRate : ℝ)
    (h : yinRms buffer < 0.01) :
    yinDetect buffer sampleRate = noDetection := by
  unfold yinDetect
  rw [if_pos h]

/-- Second exit of `yinDetect`: no threshold crossing gives no detection. -/
theorem yinDetect_scan_none (buffer : List ℝ) (sampleRate : ℝ)
    (h1 : ¬ yinRms buffer < 0.01) (h2 : yinScan buffer 2 = none) :
    yinDetect buffer sampleRate = noDetection := by
  unfold yinDetect
  rw [if_neg h1, h2]

/-- When the scan finds a lag, `yinDetect` reduces to the range filter on
`sampleRate / betterTau`. -/
theorem yinDetect_scan_some (buffer : List ℝ) (sampleRate : ℝ) (tau : ℕ)
    (h1 : ¬ yinRms buffer < 0.01) (h2 : yinScan buffer 2 = some tau) :
    yinDetect buffer sampleRate =
      if sampleRate / yinBetterTau buffer tau < minFrequency ∨
          sampleRate / yinBetterTau buffer tau > maxFrequency then
        noDetection
      else ⟨sampleRate / yinBetterTau buffer tau,
        1 - yinCMND buffer tau⟩ := by
  unfold yinDetect
  rw [if_neg h1, h2]

/-- `demoBuffer` has six samples. -/
theorem demoBuffer_length : demoBuffer.length = 6 := rfl

/-- The RMS of the demo buffer is 1. -/
theorem yinRms_demo : yinRms demoBuffer = 1 := by
  simp only [yinRms, demoBuffer_length]
  rw [show (∑ i ∈ Finset.range 6, demoBuffer.getD i 0 ^ 2) = 6 from by
    simp [Finset.sum_range_succ, demoBuffer]
    norm_num]
  norm_num

/-- The demo buffer's difference function at lag 1 is 12. -/
theorem yinDelta_demo_1 : yinDelta demoBuffer 1 = 12 := by
  simp only [yinDelta, show demoBuffer.length / 2 = 3 from rfl]
  simp [Finset.sum_range_succ, demoBuffer]
  norm_num

/-- The demo buffer's difference function at lag 2 is 0 (period 2). -/
theorem yinDelta_demo_2 : yinDelta demoBuffer 2 = 0 := by
  simp only [yinDelta, show demoBuffer.length / 2 = 3 from rfl]
  simp [Finset.sum_range_succ, demoBuffer]

/-- The demo buffer's running sum at lag 2 is 12. -/
theorem yinRunningSum_demo_2 : yinRunningSum demoBuffer 2 = 12 := by
  simp only [yinRunningSum,
    show (Finset.Icc 1 2 : Finset ℕ) = {1, 2} from by decide]
  rw [Finset.sum_insert (by decide), Finset.sum_singleton,
    yinDelta_demo_1, yinDelta_demo_2]
  norm_num

/-- The demo buffer's normalised difference at lag 2 is 0. -/
theorem yinCMND_demo_2 : yinCMND demoBuffer 2 = 0 := by
  simp only [yinCMND]
  rw [if_neg (by norm_num : ¬ ((2:ℕ) = 0)), yinDelta_demo_2,
    yinRunningSum_demo_2]
  norm_num

/-- The walk does not move from lag 2 on the demo buffer (lag 3 is out of
range). -/
theorem yinWalk_demo : yinWalk demoBuffer 2 = 2 := by
  have hnot : ¬ ((2:ℕ) + 1 < demoBuffer.length / 2 ∧
      yinCMND demoBuffer (2 + 1) < yinCMND demoBuffer 2) := by
    intro hcon
    have h31 := hcon.1
    rw [demoBuffer_length] at h31
    norm_num at h31
  rw [yinWalk, dif_neg hnot]

/-- The scan on the demo buffer finds lag 2. -/
theorem yinScan_demo : yinScan demoBuffer 2 = some 2 := by
  rw [yinScan,
    dif_pos (by rw [demoBuffer_length]; norm_num :
      (2:ℕ) < demoBuffer.length / 2),
    if_pos (by rw [yinCMND_demo_2]; norm_num [yinThreshold] :
      yinCMND demoBuffer 2 < yinThreshold),
    yinWalk_demo]

/-- No parabolic interpolation happens at lag 2 on the demo buffer. -/
theorem yinBetterTau_demo : yinBetterTau demoBuffer 2 = 2 := by
  have hnot : ¬ ((0:ℕ) < 2 ∧ 2 < demoBuffer.length / 2 - 1) := by
    intro hcon
    have h2 := hcon.2
    rw [demoBuffer_length] at h2
    norm_num at h2
  simp only [yinBetterTau]
  rw [if_neg hnot]
  norm_num

/-- On the demo buffer at 400 Hz sample rate, `yinDetect` reports a 200 Hz
detection with confidence 1. -/
theorem yinDetect_demo : yinDetect demoBuffer 400 = ⟨200, 1⟩ := by
  have hrms' : ¬ yinRms demoBuffer < 0.01 := by
    rw [yinRms_demo]
    norm_num
  have hrange : ¬ ((400:ℝ) / 2 < minFrequency ∨
      (400:ℝ) / 2 > maxFrequency) := by
    norm_num [minFrequency, maxFrequency]
  rw [yinDetect_scan_some demoBuffer 400 2 hrms' yinScan_demo,
    yinBetterTau_demo, yinCMND_demo_2, if_neg hrange]
  norm_num [PitchResult.mk.injEq]

/-- C4: `yinDetect` returns the no-detection result `⟨-1, 0⟩` exactly when
the RMS is below 0.01, no lag in `[2, bufferLength/2)` has `d'` below the
0.15 threshold, or the computed frequency falls outside `[70, 1200]` Hz;
in every other case it returns a detection, whose frequency lies in
`[70, 1200]` and is positive. (The embedding is a total function, so no
case can throw.) -/
theorem yinDetect_noDetection_iff (buffer : List ℝ) (sampleRate : ℝ) :
    (yinDetect buffer sampleRate = noDetection ↔
      (yinRms buffer < 0.01 ∨
       (∀ tau, 2 ≤ tau → tau < buffer.length / 2 →
         yinThreshold ≤ yinCMND buffer tau) ∨
       (∃ tau, yinScan buffer 2 = some tau ∧
         (sampleRate / yinBetterTau buffer tau < minFrequency ∨
          sampleRate / yinBetterTau buffer tau > maxFrequency)))) ∧
    (yinDetect buffer sampleRate ≠ noDetection →
      minFrequency ≤ (yinDetect buffer sampleRate).frequency ∧
      (yinDetect buffer sampleRate).frequency ≤ maxFrequency ∧
      0 < (yinDetect buffer sampleRate).frequency) := by
  by_cases hrms : yinRms buffer < 0.01
  · rw [yinDetect_rms_lt buffer sampleRate hrms]
    exact ⟨⟨fun _ => Or.inl hrms, fun _ => rfl⟩, fun h => absurd rfl h⟩
  · rcases Option.eq_none_or_eq_some (yinScan buffer 2) with hscan |
      ⟨tau, hscan⟩
    · rw [yinDetect_scan_none buffer sampleRate hrms hscan]
      exact ⟨⟨fun _ =>
          Or.inr (Or.inl ((yinScan_none_iff buffer 2).mp hscan)),
        fun _ => rfl⟩, fun h => absurd rfl h⟩
    · rw [yinDetect_scan_some buffer sampleRate tau hrms hscan]
      have hsome := yinScan_some buffer 2 tau hscan
      by_cases hrange : sampleRate / yinBetterTau buffer tau <
          minFrequency ∨ sampleRate / yinBetterTau buffer tau > maxFrequency
      · rw [if_pos hrange]
        exact ⟨⟨fun _ => Or.inr (Or.inr ⟨tau, hscan, hrange⟩),
          fun _ => rfl⟩, fun h => absurd rfl h⟩
      · rw [if_neg hrange]
        push_neg at hrange
        constructor
        · constructor
          · intro hEq
            have hfreq : sampleRate / yinBetterTau buffer tau = (-1:ℝ) :=
              congrArg PitchResult.frequency hEq
            have h1 : minFrequency ≤ (-1:ℝ) := hfreq ▸ hrange.1
            norm_num [minFrequency] at h1
          · intro hOr
            rcases hOr with h | h | ⟨tau', hscan', hrange'⟩
            · exact absurd h hrms
            · exact absurd (h tau hsome.1 hsome.2.1)
                (not_le.mpr hsome.2.2)
            · rw [hscan] at hscan'
              obtain rfl : tau' = tau := (Option.some.inj hscan').symm
              rcases hrange' with h' | h'
              · exact absurd h' (not_lt.mpr hrange.1)
              · exact absurd h' (not_lt.mpr hrange.2)
        · intro _
          refine ⟨hrange.1, hrange.2, ?_⟩
          have h70 : minFrequency = (70:ℝ) := rfl
          have hge := hrange.1
          rw [h70] at hge
          show (0:ℝ) < sampleRate / yinBetterTau buffer tau
          linarith

/-- Witness for C4 on the demo buffer: the detection case. -/
theorem yinDetect_noDetection_iff_witness :
    yinDetect demoBuffer 400 ≠ noDetection ∧
    (minFrequency ≤ (yinDetect demoBuffer 400).frequency ∧
     (yinDetect demoBuffer 400).frequency ≤ maxFrequency ∧
     0 < (yinDetect demoBuffer 400).frequency) := by
  have hne : yinDetect demoBuffer 400 ≠ noDetection := by
    rw [yinDetect_demo]
    intro h
    have := congrArg PitchResult.frequency h
    norm_num [noDetection] at this
  exact ⟨hne, (yinDetect_noDetection_iff demoBuffer 400).2 hne⟩

/-- C5: the confidence of every `yinDetect` result lies in `[0, 1]`; every
no-detection result carries confidence 0, and every detection carries
confidence `1 - d'(τ)` at the unrefined `τ` chosen by the scan. -/
theorem yinDetect_probability_spec (buffer : List ℝ) (sampleRate : ℝ)
    (hr : 0 < sampleRate) :
    0 ≤ (yinDetect buffer sampleRate).probability ∧
    (yinDetect buffer sampleRate).probability ≤ 1 ∧
    (yinDetect buffer sampleRate = noDetection →
      (yinDetect buffer sampleRate).probability = 0) ∧
    (yinDetect buffer sampleRate ≠ noDetection →
      ∃ tau, yinScan buffer 2 = some tau ∧
        (yinDetect buffer sampleRate).probability =
          1 - yinCMND buffer tau) := by
  by_cases hrms : yinRms buffer < 0.01
  · rw [yinDetect_rms_lt buffer sampleRate hrms]
    exact ⟨le_refl 0, by norm_num [noDetection], fun _ => rfl,
      fun h => absurd rfl h⟩
  · rcases Option.eq_none_or_eq_some (yinScan buffer 2) with hscan |
      ⟨tau, hscan⟩
    · rw [yinDetect_scan_none buffer sampleRate hrms hscan]
      exact ⟨le_refl 0, by norm_num [noDetection], fun _ => rfl,
        fun h => absurd rfl h⟩
    · rw [yinDetect_scan_some buffer sampleRate tau hrms hscan]
      by_cases hrange : sampleRate / yinBetterTau buffer tau <
          minFrequency ∨ sampleRate / yinBetterTau buffer tau > maxFrequency
      · rw [if_pos hrange]
        exact ⟨le_refl 0, by norm_num [noDetection], fun _ => rfl,
          fun h => absurd rfl h⟩
      · rw [if_neg hrange]
        have hth : yinCMND buffer tau < (0.15:ℝ) :=
          (yinScan_some buffer 2 tau hscan).2.2
        have hnn : 0 ≤ yinCMND buffer tau := yinCMND_nonneg buffer tau
        refine ⟨?_, ?_, ?_, ?_⟩
        · show (0:ℝ) ≤ 1 - yinCMND buffer tau
          linarith
        · show 1 - yinCMND buffer tau ≤ 1
          linarith
        · intro hEq
          exact congrArg PitchResult.probability hEq
        · intro _
          exact ⟨tau, hscan, rfl⟩

/-- Witness for C5 on the demo buffer at sample rate 400. -/
theorem yinDetect_probability_spec_witness :
    (0:ℝ) < 400 ∧
    (0 ≤ (yinDetect demoBuffer 400).probability ∧
     (yinDetect demoBuffer 400).probability ≤ 1 ∧
     (yinDetect demoBuffer 400 = noDetection →
       (yinDetect demoBuffer 400).probability = 0) ∧
     (yinDetect demoBuffer 400 ≠ noDetection →
       ∃ tau, yinScan demoBuffer 2 = some tau ∧
         (yinDetect demoBuffer 400).probability =
           1 - yinCMND demoBuffer tau)) :=
  ⟨by norm_num, yinDetect_probability_spec demoBuffer 400 (by norm_num)⟩

/-- C9 counterexample: on the empty buffer (an invalid input shape) the
estimator does not fail loudly; it returns the normal no-detection value
`⟨-1, 0⟩`. -/
theorem yinDetect_empty_cex : yinDetect ([] : List ℝ) 44100 = noDetection := by
  apply yinDetect_rms_lt
  have h : yinRms ([] : List ℝ) = 0 := by
    simp [yinRms]
  rw [h]
  norm_num

/-- C9 (amended): the estimator never throws on an invalid input shape;
an empty buffer, or a one-sample buffer (whose halved length is 0), is
processed by the ordinary code path and yields the normal no-detection
value `⟨-1, 0⟩` for every sample rate, including non-positive ones. -/
theorem yinDetect_invalid_shape (sampleRate a : ℝ) :
    yinDetect ([] : List ℝ) sampleRate = noDetection ∧
    yinDetect [a] sampleRate = noDetection := by
  constructor
  · apply yinDetect_rms_lt
    have h : yinRms ([] : List ℝ) = 0 := by
      simp [yinRms]
    rw [h]
    norm_num
  · by_cases hrms : yinRms [a] < 0.01
    · exact yinDetect_rms_lt _ _ hrms
    · apply yinDetect_scan_none _ _ hrms
      rw [yinScan, dif_neg]
      intro hcon
      norm_num at hcon

/-- C10: every detection of the YIN estimator has confidence strictly
above `1 - 0.15 = 0.85`, and therefore passes the 0.8 probability gate
applied by `detectPitch` before `onPitchDetected` fires. -/
theorem yinDetect_confidence_gate (buffer : List ℝ) (sampleRate : ℝ)
    (h : 0 < (yinDetect buffer sampleRate).frequency) :
    0.85 < (yinDetect buffer sampleRate).probability ∧
    passesGate (yinDetect buffer sampleRate) := by
  by_cases hrms : yinRms buffer < 0.01
  · rw [yinDetect_rms_lt buffer sampleRate hrms] at h
    norm_num [noDetection] at h
  · rcases Option.eq_none_or_eq_some (yinScan buffer 2) with hscan |
      ⟨tau, hscan⟩
    · rw [yinDetect_scan_none buffer sampleRate hrms hscan] at h
      norm_num [noDetection] at h
    · rw [yinDetect_scan_some buffer sampleRate tau hrms hscan] at h ⊢
      by_cases hrange : sampleRate / yinBetterTau buffer tau <
          minFrequency ∨ sampleRate / yinBetterTau buffer tau > maxFrequency
      · rw [if_pos hrange] at h
        norm_num [noDetection] at h
      · rw [if_neg hrange] at h ⊢
        have hth : yinCMND buffer tau < (0.15:ℝ) :=
          (yinScan_some buffer 2 tau hscan).2.2
        constructor
        · show (0.85:ℝ) < 1 - yinCMND buffer tau
          linarith
        · refine ⟨h, ?_⟩
          show yinProbabilityThreshold ≤ 1 - yinCMND buffer tau
          have h08 : yinProbabilityThreshold = (0.8:ℝ) := rfl
          linarith [h08.ge]

/-- Witness for C10 on the demo buffer: its detection has confidence 1. -/
theorem yinDetect_confidence_gate_witness :
    0 < (yinDetect demoBuffer 400).frequency ∧
    (0.85 < (yinDetect demoBuffer 400).probability ∧
     passesGate (yinDetect demoBuffer 400)) := by
  have hpos : 0 < (yinDetect demoBuffer 400).frequency := by
    rw [yinDetect_demo]
    norm_num
  exact ⟨hpos, yinDetect_confidence_gate demoBuffer 400 hpos⟩

end FretboardTrainer
